import Mathlib

/-!
Shallow embedding of the expression-evaluation core of `expr/expr.go`
(package `expr` of this repository): the three-way value model
(Scalar / Number / Series), the tag-group union algorithm, the binary and
unary operator semantics, function dispatch, and the `Execute` entrypoint
with its panic/recover split between domain errors and runtime faults.

Modelling conventions:
- Go `float64` is modelled by the inductive `F` below: exact rationals for
  finite values plus explicit `+Inf`, `-Inf` and `NaN` with the IEEE-754
  special-value propagation rules.  Rounding, overflow and negative zero
  are not modelled; no claim in this development depends on them.
- Go maps (`opentsdb.TagSet`, `Series`) are modelled as association lists.
  A fresh map built from another map's keys is order-independent in Go, so
  the list order simply mirrors the source list.
- Go panics carrying an `error` value are domain failures (`Failure.domain`),
  re-panicked `runtime.Error` values are faults (`Failure.fault`); both are
  threaded explicitly through the walk as an `Except` value.
-/

namespace Bosun

/-- Idealized model of Go `float64`: exact rationals for finite values,
plus positive infinity, negative infinity and NaN. -/
inductive F where
  | finite (q : ℚ)
  | pinf
  | ninf
  | nan
deriving DecidableEq, Repr

/-- IEEE negation on the float model. -/
def F.neg : F → F
  | .finite q => .finite (-q)
  | .pinf => .ninf
  | .ninf => .pinf
  | .nan => .nan

/-- IEEE addition on the float model: NaN propagates, opposite infinities
give NaN, an infinity absorbs finite values. -/
def F.add : F → F → F
  | .nan, _ => .nan
  | _, .nan => .nan
  | .pinf, .ninf => .nan
  | .ninf, .pinf => .nan
  | .pinf, _ => .pinf
  | _, .pinf => .pinf
  | .ninf, _ => .ninf
  | _, .ninf => .ninf
  | .finite a, .finite b => .finite (a + b)

/-- IEEE subtraction: `a - b = a + (-b)`. -/
def F.sub (a b : F) : F := F.add a (F.neg b)

/-- IEEE multiplication: NaN propagates, infinity times zero gives NaN,
otherwise signs multiply. -/
def F.mul : F → F → F
  | .nan, _ => .nan
  | _, .nan => .nan
  | .pinf, .pinf => .pinf
  | .pinf, .ninf => .ninf
  | .ninf, .pinf => .ninf
  | .ninf, .ninf => .pinf
  | .pinf, .finite q => if 0 < q then .pinf else if q < 0 then .ninf else .nan
  | .finite q, .pinf => if 0 < q then .pinf else if q < 0 then .ninf else .nan
  | .ninf, .finite q => if 0 < q then .ninf else if q < 0 then .pinf else .nan
  | .finite q, .ninf => if 0 < q then .ninf else if q < 0 then .pinf else .nan
  | .finite a, .finite b => .finite (a * b)

/-- IEEE division: NaN propagates, infinity over infinity and zero over zero
give NaN, a nonzero finite value over zero gives a signed infinity, a finite
value over an infinity gives zero.  Division never raises an error. -/
def F.div : F → F → F
  | .nan, _ => .nan
  | _, .nan => .nan
  | .pinf, .pinf => .nan
  | .pinf, .ninf => .nan
  | .ninf, .pinf => .nan
  | .ninf, .ninf => .nan
  | .pinf, .finite q => if q < 0 then .ninf else .pinf
  | .ninf, .finite q => if q < 0 then .pinf else .ninf
  | .finite _, .pinf => .finite 0
  | .finite _, .ninf => .finite 0
  | .finite a, .finite b =>
    if b = 0 then
      (if a = 0 then .nan else if 0 < a then .pinf else .ninf)
    else .finite (a / b)

/-- IEEE equality test: NaN compares unequal to everything, including itself. -/
def F.beq : F → F → Bool
  | .nan, _ => false
  | _, .nan => false
  | .pinf, .pinf => true
  | .ninf, .ninf => true
  | .finite a, .finite b => a == b
  | _, _ => false

/-- IEEE strict less-than: any comparison involving NaN is false. -/
def F.lt : F → F → Bool
  | .nan, _ => false
  | _, .nan => false
  | .pinf, _ => false
  | _, .ninf => false
  | .ninf, _ => true
  | .finite _, .pinf => true
  | .finite a, .finite b => a < b

/-- IEEE less-or-equal: `a <= b` holds iff `a < b` or `a == b`. -/
def F.le (a b : F) : Bool := F.lt a b || F.beq a b

/-- Modelled from the spec: `opentsdb.TagSet` (external to the file under
verification) is a mapping from tag key to tag value; modelled as an
association list. -/
abbrev TagSet := List (String × String)

/-- Modelled from the spec: `TagSet.Subset` holds when every key/value pair
of the first tag set is also present in the second. -/
def TagSet.Subset (a b : TagSet) : Bool :=
  a.all fun kv => b.lookup kv.1 == some kv.2

/-- Modelled from the spec: `TagSet.Equal` holds when the two tag sets hold
the same key/value pairs. -/
def TagSet.Equal (a b : TagSet) : Bool :=
  TagSet.Subset a b && TagSet.Subset b a

/-- Rendered computation text: the template together with the tag group
whose values were substituted into it. -/
structure CompText where
  template : String
  group : TagSet
deriving DecidableEq, Repr

/-- Modelled from the spec: `opentsdb.ReplaceTags` substitutes tag
placeholders in a computation text by the group's tag values.  The function
lives outside this repository's file under verification, so its output is
modelled opaquely as the pair of its arguments (the template and the group
substituted into it). -/
def ReplaceTags (text : String) (g : TagSet) : CompText :=
  { template := text, group := g }

/-- Domain-level errors: Go panics carrying an `error` value, captured by
`errRecover` and turned into `Execute`'s returned error. -/
inductive EvalError where
  | unknownOpType
  | unknownOperator (op : String)
  | unknownNodeType
  | unknownFuncArgType
  | funcError (msg : String)
deriving DecidableEq, Repr

/-- A failure signal raised during the walk: either a domain error
(a Go panic holding an `error`) or a runtime fault (a re-panicked
`runtime.Error`, e.g. a failed type assertion). -/
inductive Failure where
  | domain (e : EvalError)
  | fault (msg : String)
deriving DecidableEq, Repr

/-- The declared type tag of a value or of a built-in's return
(`parse.FuncType`). -/
inductive FuncType where
  | scalar
  | number
  | series
deriving DecidableEq, Repr

/-- A time series: mapping from timestamp (string key) to sample
(`map[string]opentsdb.Point` in the source, modelled as an association
list). -/
abbrev Series := List (String × F)

/-- The closed value variant: `Scalar`, `Number` and `Series` are the three
implementations of the `Value` interface in the source. -/
inductive Value where
  | scalar (v : F)
  | number (v : F)
  | series (s : Series)
deriving DecidableEq, Repr

/-- The `Type()` method of a value. -/
def Value.Type : Value → FuncType
  | .scalar _ => .scalar
  | .number _ => .number
  | .series _ => .series

/-- One recorded trace entry: rendered text plus numeric value. -/
structure Computation where
  Text : CompText
  Val : F
deriving DecidableEq, Repr

/-- The `Computations` slice. -/
abbrev Computations := List Computation

/-- A `Result`: computation trace, value and tag group. -/
structure Result where
  Computations : Computations := []
  Value : Value
  Group : TagSet := []
deriving DecidableEq, Repr

/-- The `Result.AddComputation` method: appends one computation whose text
has the result's own group values substituted in. -/
def Result.AddComputation (r : Result) (text : String) (result : F) : Result :=
  { r with Computations := r.Computations ++ [⟨ReplaceTags text r.Group, result⟩] }

/-- A transient matched operand pair produced by the union algorithm. -/
structure Union where
  Computations : Computations := []
  A : Value
  B : Value
  Group : TagSet := []
deriving DecidableEq, Repr

/-- The `wrap` helper: a single scalar result with nil group. -/
def wrap (v : F) : List Result :=
  [{ Value := .scalar v, Group := [] }]

/-- The body of the nested loop of `union` for one pair `(ra, rb)`:
`some u` when the loop appends a union for the pair, `none` when the
`continue` branch is taken. -/
def unionOne (ra rb : Result) : Option Union :=
  if TagSet.Equal ra.Group rb.Group || ra.Group.length == 0 || rb.Group.length == 0 then
    some { A := ra.Value, B := rb.Value,
           Group := if ra.Group.length == 0 then rb.Group else ra.Group,
           Computations := ra.Computations ++ rb.Computations }
  else if TagSet.Subset ra.Group rb.Group then
    some { A := ra.Value, B := rb.Value, Group := ra.Group,
           Computations := ra.Computations ++ rb.Computations }
  else if TagSet.Subset rb.Group ra.Group then
    some { A := ra.Value, B := rb.Value, Group := rb.Group,
           Computations := ra.Computations ++ rb.Computations }
  else
    none

/-- The `union` function: nested loop over all pairs of `a` and `b`,
emitting one union for each combinable pair. -/
def union (a b : List Result) : List Union :=
  a.flatMap fun ra => b.filterMap fun rb => unionOne ra rb

/-- The `operate` function: binary operator dispatch on the operator token,
with the unrecognized-token default raising the unknown-operator panic. -/
def operate (op : String) (a b : F) : Except Failure F :=
  if op = "+" then .ok (F.add a b)
  else if op = "*" then .ok (F.mul a b)
  else if op = "-" then .ok (F.sub a b)
  else if op = "/" then .ok (F.div a b)
  else if op = "==" then .ok (if F.beq a b then .finite 1 else .finite 0)
  else if op = ">" then .ok (if F.lt b a then .finite 1 else .finite 0)
  else if op = "!=" then .ok (if !F.beq a b then .finite 1 else .finite 0)
  else if op = "<" then .ok (if F.lt a b then .finite 1 else .finite 0)
  else if op = ">=" then .ok (if F.le b a then .finite 1 else .finite 0)
  else if op = "<=" then .ok (if F.le a b then .finite 1 else .finite 0)
  else if op = "||" then .ok (if !F.beq a (.finite 0) || !F.beq b (.finite 0) then .finite 1 else .finite 0)
  else if op = "&&" then .ok (if !F.beq a (.finite 0) && !F.beq b (.finite 0) then .finite 1 else .finite 0)
  else .error (.domain (.unknownOperator op))

/-- The `uoperate` function: unary operator dispatch. -/
def uoperate (op : String) (a : F) : Except Failure F :=
  if op = "!" then .ok (if F.beq a (.finite 0) then .finite 1 else .finite 0)
  else if op = "-" then .ok (F.neg a)
  else .error (.domain (.unknownOperator op))

/-- JSON value produced by marshaling a float: either a quoted string (for
the IEEE specials) or a plain numeric literal carrying the float's value. -/
inductive Json where
  | str (s : String)
  | num (v : F)
deriving DecidableEq, Repr

/-- The `math.IsNaN` predicate of the Go standard library on the float
model. -/
def IsNaN : F → Bool
  | .nan => true
  | _ => false

/-- The `math.IsInf` predicate of the Go standard library on the float
model: positive sign asks for positive infinity, negative sign for
negative infinity. -/
def IsInf (f : F) (sign : Int) : Bool :=
  (decide (0 ≤ sign) && decide (f = F.pinf)) || (decide (sign ≤ 0) && decide (f = F.ninf))

/-- The `marshalFloat` helper: NaN and the infinities marshal as the quoted
strings `NaN`, `+Inf` and `-Inf`; every other value marshals as a plain
numeric literal. -/
def marshalFloat (n : F) : Json :=
  if IsNaN n then .str "NaN"
  else if IsInf n 1 then .str "+Inf"
  else if IsInf n (-1) then .str "-Inf"
  else .num n

/-- The `MarshalJSON` methods of `Number` and `Scalar`, both delegating to
`marshalFloat`; `Series` has no float-literal marshaler in the source. -/
def Value.MarshalJSON : Value → Option Json
  | .scalar v => some (marshalFloat v)
  | .number v => some (marshalFloat v)
  | .series _ => none

/-- The opaque backend query context (`opentsdb.Context`), consumed only by
built-ins. -/
structure Context where
  info : List String := []
deriving DecidableEq, Repr

/-- A backend request (`opentsdb.Request`): accumulated, never executed. -/
structure Request where
  text : String
deriving DecidableEq, Repr

/-- The evaluation `state`: the query context and the accumulated backend
requests. -/
structure EvalState where
  context : Context
  queries : List Request := []
deriving DecidableEq, Repr

/-- The `state.addRequest` method. -/
def EvalState.addRequest (e : EvalState) (r : Request) : EvalState :=
  { e with queries := e.queries ++ [r] }

/-- A resolved built-in argument (the `interface` value passed by
`walkFunc`): a verbatim string, a bare float, or a result slice. -/
inductive FuncArg where
  | text (s : String)
  | num (v : F)
  | results (rs : List Result)
deriving DecidableEq, Repr

/-- The `extractScalar` helper: a one-element slice holding a scalar yields
its bare float; every other slice passes through unchanged. -/
def extractScalar (res : List Result) : FuncArg :=
  match res with
  | [r] =>
    match r.Value with
    | .scalar v => .num v
    | _ => .results res
  | _ => .results res

/-- A built-in function descriptor (`parse.Func`): declared return type and
the native call target.  Built-ins are external collaborators; per the
spec's function contract the timer they receive is pure instrumentation
with no effect on results, so the model passes them only the evaluation
state and the resolved arguments.  A returned error message models the
non-nil `error` of the Go contract. -/
structure FuncDef where
  name : String
  rtype : FuncType
  run : EvalState → List FuncArg → EvalState × Except String (List Result)

/-- The profiler handle (`miniprofiler.Timer`): an opaque step-trace
threaded through the walk purely for instrumentation. -/
structure Timer where
  steps : List String := []

/-- The `Timer.Step` method: records the step name and runs the body with
the inner timer. -/
def Timer.Step (t : Timer) (name : String) (f : Timer → α) : α :=
  f { steps := t.steps ++ [name] }

mutual

/-- The parse-tree node kinds the walker handles.  Each node carries `txt`,
the textual rendering `node.String()` produced by the external parser. -/
inductive Node where
  | num (v : F)
  | str (s : String)
  | binary (op txt : String) (l r : Node)
  | unary (op txt : String) (arg : Node)
  | func (fd : FuncDef) (txt : String) (args : NodeList)

/-- Argument list of a function-call node. -/
inductive NodeList where
  | nil
  | cons (a : Node) (rest : NodeList)

end

/-- A Go loop that builds a list, aborting at the first raised failure. -/
def collect (f : α → Except Failure β) : List α → Except Failure (List β)
  | [] => .ok []
  | a :: rest =>
    match f a with
    | .error e => .error e
    | .ok b =>
      match collect f rest with
      | .error e => .error e
      | .ok bs => .ok (b :: bs)

/-- Maps an operator application over every sample of a series, propagating
a panic raised by `operate`. -/
def mapSeries (f : F → Except Failure F) (s : Series) : Except Failure Series :=
  collect (fun kv => (f kv.2).map fun x => (kv.1, x)) s

/-- The body of `walkBinary`'s loop for one union: dispatch on the dynamic
`(A, B)` variant pair.  Scalar and Number pairs log a computation; a Series
paired with a Scalar or Number broadcasts the non-series value across every
sample, keeping the union's group and computations; a Series paired with a
Series hits the default case and raises `ErrUnknownOp`. -/
def combineUnion (op txt : String) (u : Union) : Except Failure Result :=
  match u.A, u.B with
  | .scalar a, .scalar b =>
    (operate op a b).map fun n =>
      Result.AddComputation { Computations := u.Computations, Value := .scalar n, Group := u.Group } txt n
  | .scalar a, .number b =>
    (operate op a b).map fun n =>
      Result.AddComputation { Computations := u.Computations, Value := .number n, Group := u.Group } txt n
  | .scalar a, .series sb =>
    (mapSeries (fun x => operate op a x) sb).map fun s =>
      { Computations := u.Computations, Value := .series s, Group := u.Group }
  | .number a, .scalar b =>
    (operate op a b).map fun n =>
      Result.AddComputation { Computations := u.Computations, Value := .number n, Group := u.Group } txt n
  | .number a, .number b =>
    (operate op a b).map fun n =>
      Result.AddComputation { Computations := u.Computations, Value := .number n, Group := u.Group } txt n
  | .number a, .series sb =>
    (mapSeries (fun x => operate op a x) sb).map fun s =>
      { Computations := u.Computations, Value := .series s, Group := u.Group }
  | .series sa, .scalar b =>
    (mapSeries (fun x => operate op x b) sa).map fun s =>
      { Computations := u.Computations, Value := .series s, Group := u.Group }
  | .series sa, .number b =>
    (mapSeries (fun x => operate op x b) sa).map fun s =>
      { Computations := u.Computations, Value := .series s, Group := u.Group }
  | .series _, .series _ => .error (.domain .unknownOpType)

/-- The loop of `walkBinary` over all unions of the two operand slices. -/
def combineUnions (op txt : String) (us : List Union) : Except Failure (List Result) :=
  collect (fun u => combineUnion op txt u) us

/-- The elementwise update of one result by `walkUnary`: dispatch on the
value variant, applying `uoperate` to every float. -/
def unaryOne (op : String) (r : Result) : Except Failure Result :=
  match r.Value with
  | .scalar v => (uoperate op v).map fun x => { r with Value := .scalar x }
  | .number v => (uoperate op v).map fun x => { r with Value := .number x }
  | .series s =>
    (mapSeries (fun x => uoperate op x) s).map fun s2 => { r with Value := .series s2 }

/-- The loop of `walkUnary`: applies the unary operator elementwise to each
result's value, leaving group and computations untouched. -/
def unaryAll (op : String) (rs : List Result) : Except Failure (List Result) :=
  collect (unaryOne op) rs

/-- The Go runtime's message for the failed type assertion
`r.Value.(Number)` in `walkFunc`. -/
def assertMsg : String := "interface conversion: expr.Value is not expr.Number"

/-- The post-call loop of `walkFunc` for built-ins declared to return
Number: appends a computation to every returned result, casting the
result's value to `Number` without checking.  A non-Number value makes the
type assertion fail, which is a runtime fault, not a domain error. -/
def appendNumberComps (txt : String) (rs : List Result) : Except Failure (List Result) :=
  collect (fun r =>
    match r.Value with
    | .number n => .ok (r.AddComputation txt n)
    | _ => .error (.fault assertMsg)) rs

mutual

/-- The recursive tree walker `state.walk` together with the inlined bodies
of `walkBinary`, `walkUnary` and `walkFunc`.  Returns the updated state
(the accumulated backend requests) and either the result slice or the
first failure signal raised.  A string node at expression position hits
`walk`'s default case and raises the unknown-node-type error. -/
def walk (n : Node) (T : Timer) (s : EvalState) :
    EvalState × Except Failure (List Result) :=
  match n with
  | .num v => (s, .ok (wrap v))
  | .str _ => (s, .error (.domain .unknownNodeType))
  | .binary op txt l r =>
    match walk l T s with
    | (s1, .error e) => (s1, .error e)
    | (s1, .ok ra) =>
      match walk r T s1 with
      | (s2, .error e) => (s2, .error e)
      | (s2, .ok rb) => (s2, combineUnions op txt (union ra rb))
  | .unary op _ arg =>
    match walk arg T s with
    | (s1, .error e) => (s1, .error e)
    | (s1, .ok ra) => (s1, unaryAll op ra)
  | .func fd txt args =>
    match walkArgs args T s with
    | (s1, .error e) => (s1, .error e)
    | (s1, .ok ins) =>
      match fd.run s1 ins with
      | (s2, .error msg) => (s2, .error (.domain (.funcError msg)))
      | (s2, .ok res) =>
        if fd.rtype = FuncType.number then (s2, appendNumberComps txt res)
        else (s2, .ok res)

/-- The argument-resolution loop of `walkFunc`: string and number literals
pass through verbatim, any other node kind is walked and routed through
`extractScalar`. -/
def walkArgs (args : NodeList) (T : Timer) (s : EvalState) :
    EvalState × Except Failure (List FuncArg) :=
  match args with
  | .nil => (s, .ok [])
  | .cons a rest =>
    let step : EvalState × Except Failure FuncArg :=
      match a with
      | .str t => (s, .ok (.text t))
      | .num f => (s, .ok (.num f))
      | _ =>
        match walk a T s with
        | (s1, .error e) => (s1, .error e)
        | (s1, .ok rs) => (s1, .ok (extractScalar rs))
    match step with
    | (s1, .error e) => (s1, .error e)
    | (s1, .ok arg) =>
      match walkArgs rest T s1 with
      | (s2, .error e) => (s2, .error e)
      | (s2, .ok more) => (s2, .ok (arg :: more))

end

/-- The observable outcome of `Execute`: success with results and the
accumulated backend requests; a domain error captured by `errRecover`
(returned as `(nil, nil, err)`); or a runtime fault re-panicked by
`errRecover`, terminating the process. -/
inductive ExecOutcome where
  | ok (results : List Result) (queries : List Request)
  | err (e : EvalError)
  | crash (msg : String)
deriving DecidableEq, Repr

/-- The fresh evaluation state built at the top of `Execute`. -/
def initState (c : Context) : EvalState :=
  { context := c, queries := [] }

/-- The `Execute` entrypoint: builds a fresh state, replaces a nil timer by
a fresh profile, walks the root inside a timer step, and converts the
failure signal per `errRecover`: a domain error becomes the returned error
with nil results and nil requests, a runtime fault is re-panicked. -/
def Execute (root : Node) (c : Context) (T : Option Timer) : ExecOutcome :=
  let T0 := T.getD { steps := [] }
  T0.Step "expr execute" fun T1 =>
    match walk root T1 (initState c) with
    | (s, .ok rs) => .ok rs s.queries
    | (_, .error (.domain e)) => .err e
    | (_, .error (.fault m)) => .crash m

/-! ## Spec-side definitions

The definitions below follow the words of the specification, not the
source; they exist to be compared against the source-derived definitions
above. -/

/-- The operator tokens recognized by `operate`. -/
def knownOps : List String :=
  ["+", "*", "-", "/", "==", ">", "!=", "<", ">=", "<=", "||", "&&"]

/-- Spec-side total denotation of the recognized binary operators; its
value on unrecognized tokens is irrelevant (it is only ever compared with
`operate` under a recognized token). -/
def opDenote (op : String) (a b : F) : F :=
  if op = "+" then F.add a b
  else if op = "*" then F.mul a b
  else if op = "-" then F.sub a b
  else if op = "/" then F.div a b
  else if op = "==" then (if F.beq a b then .finite 1 else .finite 0)
  else if op = ">" then (if F.lt b a then .finite 1 else .finite 0)
  else if op = "!=" then (if !F.beq a b then .finite 1 else .finite 0)
  else if op = "<" then (if F.lt a b then .finite 1 else .finite 0)
  else if op = ">=" then (if F.le b a then .finite 1 else .finite 0)
  else if op = "<=" then (if F.le a b then .finite 1 else .finite 0)
  else if op = "||" then (if !F.beq a (.finite 0) || !F.beq b (.finite 0) then .finite 1 else .finite 0)
  else (if !F.beq a (.finite 0) && !F.beq b (.finite 0) then .finite 1 else .finite 0)

/-- Spec-side total denotation of the two recognized unary operators; its
value on other tokens is irrelevant. -/
def uDenote (op : String) (a : F) : F :=
  if op = "!" then (if F.beq a (.finite 0) then .finite 1 else .finite 0)
  else F.neg a

/-- Spec-side description of one step of the unary walk: the operator is
applied elementwise to the value while the group and the computations are
left unchanged. -/
def specApplyUnary (op : String) (r : Result) : Result :=
  { r with Value :=
      match r.Value with
      | .scalar v => .scalar (uDenote op v)
      | .number v => .number (uDenote op v)
      | .series s => .series (s.map fun kv => (kv.1, uDenote op kv.2)) }

/-- Spec-side projection of a number-typed value; its output on the other
variants is irrelevant (it is only ever applied to number results). -/
def numVal (r : Result) : F :=
  match r.Value with
  | .number n => n
  | _ => .finite 0

/-! ## Helper lemmas -/

/-- On a recognized token, `operate` never raises and agrees with the total
denotation. -/
theorem operate_known (op : String) (hop : op ∈ knownOps) (a b : F) :
    operate op a b = .ok (opDenote op a b) := by
  simp only [knownOps, List.mem_cons, List.not_mem_nil, or_false] at hop
  rcases hop with h | h | h | h | h | h | h | h | h | h | h | h <;>
    subst h <;> rfl

/-- On a recognized unary token, `uoperate` never raises and agrees with
the total denotation. -/
theorem uoperate_known (op : String) (hop : op = "!" ∨ op = "-") (a : F) :
    uoperate op a = .ok (uDenote op a) := by
  rcases hop with h | h <;> subst h <;> rfl

/-- A loop over a never-failing body succeeds with the mapped list. -/
theorem collect_ok (f : α → Except Failure β) (g : α → β)
    (hf : ∀ x, f x = .ok (g x)) (l : List α) :
    collect f l = .ok (l.map g) := by
  induction l with
  | nil => rfl
  | cons a rest ih => simp [collect, hf, ih]

/-- A loop whose body succeeds on every member of the list succeeds with
the mapped list. -/
theorem collect_ok_mem (f : α → Except Failure β) (g : α → β) :
    ∀ l : List α, (∀ a ∈ l, f a = .ok (g a)) → collect f l = .ok (l.map g) := by
  intro l
  induction l with
  | nil => intro _; rfl
  | cons a rest ih =>
    intro hf
    have ha := hf a (by simp)
    simp [collect, ha, ih fun x hx => hf x (by simp [hx])]

/-- A loop whose body can only raise one fixed failure raises exactly that
failure as soon as some member of the list makes the body fail. -/
theorem collect_error_of_mem (f : α → Except Failure β) (E : Failure)
    (hall : ∀ a, (∃ b, f a = .ok b) ∨ f a = .error E) :
    ∀ l : List α, (∃ a ∈ l, f a = .error E) → collect f l = .error E := by
  intro l
  induction l with
  | nil => rintro ⟨a, ha, _⟩; exact absurd ha (by simp)
  | cons a rest ih =>
    rintro ⟨x, hx, hfx⟩
    rcases hall a with ⟨b, hb⟩ | he
    · have hxr : x ∈ rest := by
        rcases List.mem_cons.mp hx with h | h
        · subst h; rw [hb] at hfx; cases hfx
        · exact h
      simp [collect, hb, ih ⟨x, hxr, hfx⟩]
    · simp [collect, he]

/-- Mapping a never-failing operator application over a series maps the
denotation over every sample and keeps every timestamp. -/
theorem mapSeries_ok (f : F → Except Failure F) (g : F → F)
    (hf : ∀ x, f x = .ok (g x)) (s : Series) :
    mapSeries f s = .ok (s.map fun kv => (kv.1, g kv.2)) := by
  unfold mapSeries
  exact collect_ok _ _ (fun kv => by simp [hf, Except.map]) s

mutual

/-- The timer is pure instrumentation: the walk returns the same state and
the same results whichever timer it is handed. -/
theorem walk_timer_eq (n : Node) (T T' : Timer) (s : EvalState) :
    walk n T s = walk n T' s := by
  cases n with
  | num v => rfl
  | str t => rfl
  | binary op txt l r =>
    simp only [walk]
    rw [walk_timer_eq l T T' s]
    rcases walk l T' s with ⟨s1, res⟩
    cases res with
    | error e => rfl
    | ok ra =>
      simp only []
      rw [walk_timer_eq r T T' s1]
  | unary op txt arg =>
    simp only [walk]
    rw [walk_timer_eq arg T T' s]
  | func fd txt args =>
    simp only [walk]
    rw [walkArgs_timer_eq args T T' s]

/-- The argument-resolution loop is likewise timer-independent. -/
theorem walkArgs_timer_eq (args : NodeList) (T T' : Timer) (s : EvalState) :
    walkArgs args T s = walkArgs args T' s := by
  cases args with
  | nil => rfl
  | cons a rest =>
    simp only [walkArgs]
    have ha : (match a with
        | Node.str t => (s, Except.ok (FuncArg.text t))
        | Node.num f => (s, Except.ok (FuncArg.num f))
        | _ =>
          match walk a T s with
          | (s1, Except.error e) => (s1, Except.error e)
          | (s1, Except.ok rs) => (s1, Except.ok (extractScalar rs))) =
        (match a with
        | Node.str t => (s, Except.ok (FuncArg.text t))
        | Node.num f => (s, Except.ok (FuncArg.num f))
        | _ =>
          match walk a T' s with
          | (s1, Except.error e) => (s1, Except.error e)
          | (s1, Except.ok rs) => (s1, Except.ok (extractScalar rs))) := by
      cases a <;> simp only [] <;> rw [walk_timer_eq _ T T']
    rw [ha]
    rcases h : (match a with
        | Node.str t => (s, Except.ok (FuncArg.text t))
        | Node.num f => (s, Except.ok (FuncArg.num f))
        | _ =>
          match walk a T' s with
          | (s1, Except.error e) => (s1, Except.error e)
          | (s1, Except.ok rs) => (s1, Except.ok (extractScalar rs))) with ⟨s1, res⟩
    rw [h]
    cases res with
    | error e => rfl
    | ok arg =>
      simp only []
      rw [walkArgs_timer_eq rest T T' s1]

end

/-- Definitional equations of `operate` on the comparison and logical
tokens, collected for reuse. -/
theorem operate_cmp_defs (a b : F) :
    operate "==" a b = .ok (if F.beq a b then .finite 1 else .finite 0) ∧
    operate ">" a b = .ok (if F.lt b a then .finite 1 else .finite 0) ∧
    operate "!=" a b = .ok (if !F.beq a b then .finite 1 else .finite 0) ∧
    operate "<" a b = .ok (if F.lt a b then .finite 1 else .finite 0) ∧
    operate ">=" a b = .ok (if F.le b a then .finite 1 else .finite 0) ∧
    operate "<=" a b = .ok (if F.le a b then .finite 1 else .finite 0) ∧
    operate "||" a b = .ok (if !F.beq a (.finite 0) || !F.beq b (.finite 0) then .finite 1 else .finite 0) ∧
    operate "&&" a b = .ok (if !F.beq a (.finite 0) && !F.beq b (.finite 0) then .finite 1 else .finite 0) :=
  ⟨rfl, rfl, rfl, rfl, rfl, rfl, rfl, rfl⟩

/-- On a recognized unary token, each result is updated exactly as the
spec-side elementwise description says. -/
theorem unaryOne_known (op : String) (hop : op = "!" ∨ op = "-") (r : Result) :
    unaryOne op r = .ok (specApplyUnary op r) := by
  cases hval : r.Value with
  | scalar v => simp [unaryOne, hval, uoperate_known op hop, specApplyUnary, Except.map]
  | number v => simp [unaryOne, hval, uoperate_known op hop, specApplyUnary, Except.map]
  | series s =>
    simp [unaryOne, hval, specApplyUnary, Except.map,
      mapSeries_ok (fun x => uoperate op x) (fun x => uDenote op x)
        (fun x => uoperate_known op hop x) s]

/-! ## Concrete inputs used by counterexamples and witnesses -/

/-- A result whose group strictly contains `rbSub`'s group. -/
def raSup : Result := { Value := .number (.finite 5), Group := [("env","prod"),("host","a")] }

/-- A result whose group is a strict subset of `raSup`'s group. -/
def rbSub : Result := { Value := .number (.finite 2), Group := [("host","a")] }

/-- The union the source emits for the pair `(raSup, rbSub)`. -/
def uC2 : Union :=
  { Computations := [], A := .number (.finite 5), B := .number (.finite 2), Group := [("host","a")] }

/-- A built-in declared to return Series that yields one series result. -/
def seriesFn : FuncDef :=
  { name := "q", rtype := .series,
    run := fun s _ => (s, .ok [{ Value := .series [("0", .finite 1)], Group := [("host","a")] }]) }

/-- A binary node both of whose operands evaluate to Series results. -/
def seriesSeriesNode : Node :=
  .binary "+" "q()+q()" (.func seriesFn "q()" .nil) (.func seriesFn "q()" .nil)

/-- A union pairing a series with a scalar, used to exercise broadcasting. -/
def uC4 : Union :=
  { Computations := [⟨⟨"t", []⟩, .finite 1⟩], A := .series [("0", .finite 3)],
    B := .scalar F.pinf, Group := [("host","a")] }

/-- A built-in declared to return Number that actually yields a scalar
result, violating the uncheck-cast assumption of `walkFunc`. -/
def badFn : FuncDef :=
  { name := "n", rtype := .number,
    run := fun s _ => (s, .ok [{ Value := .scalar (.finite 1), Group := [] }]) }

/-- A call node invoking `badFn`. -/
def badNode : Node := .func badFn "n()" .nil

/-! ## Claim theorems -/

/-- Claim C1: for every pair of results drawn from the two operand slices
of a binary operator, the union algorithm emits exactly one union for the
pair (the nested loop contributes exactly the `unionOne` output per pair)
iff the two groups are equal, or either group is empty, or one group is a
subset of the other; for a pair satisfying none of these no union is
emitted and no failure is raised. -/
theorem c1_union_combinability :
    (∀ a b : List Result,
      union a b = a.flatMap fun ra => b.filterMap fun rb => unionOne ra rb) ∧
    (∀ ra rb : Result,
      (unionOne ra rb).isSome =
        (TagSet.Equal ra.Group rb.Group || ra.Group.length == 0 || rb.Group.length == 0 ||
         TagSet.Subset ra.Group rb.Group || TagSet.Subset rb.Group ra.Group)) := by
  refine ⟨fun a b => rfl, fun ra rb => ?_⟩
  unfold unionOne
  split
  · rename_i h
    simp [h]
  · rename_i h
    split
    · rename_i h2
      simp only [Option.isSome_some, Bool.true_eq]
      simp only [Bool.or_eq_true] at *
      tauto
    · rename_i h2
      split
      · rename_i h3
        simp only [Option.isSome_some, Bool.true_eq]
        simp only [Bool.or_eq_true] at *
        tauto
      · rename_i h3
        simp only [Bool.or_eq_true, not_or] at h
        obtain ⟨⟨hA, hB⟩, hC⟩ := h
        simp [Option.isSome, hA, hB, hC, h2, h3]

/-- Claim C2 counterexample: for the pair `(raSup, rbSub)` — both groups
non-empty, unequal, `rbSub.Group` a strict subset of `raSup.Group` — the
emitted union's group is the subset `[("host","a")]`, not the superset
`raSup.Group` demanded by the claim. -/
theorem c2_superset_counterexample :
    TagSet.Subset rbSub.Group raSup.Group = true ∧
    TagSet.Equal raSup.Group rbSub.Group = false ∧
    raSup.Group ≠ [] ∧ rbSub.Group ≠ [] ∧
    (unionOne raSup rbSub).map Union.Group = some [("host","a")] ∧
    (unionOne raSup rbSub).map Union.Group ≠ some raSup.Group :=
  ⟨rfl, rfl, by decide, by decide, rfl, by decide⟩

/-- Claim C2 (amended): for every emitted union, when one operand's group
is empty the union's group equals the other side's group; when the two
groups are non-empty, unequal, and one is a strict subset of the other,
the union's group equals the SUBSET (the smaller tag set), not the
superset; and the union's computations are the concatenation of
`ra.Computations` followed by `rb.Computations`. -/
theorem c2_group_resolution_amended (ra rb : Result) (u : Union)
    (h : unionOne ra rb = some u) :
    u.Computations = ra.Computations ++ rb.Computations ∧
    u.A = ra.Value ∧ u.B = rb.Value ∧
    (ra.Group = [] → u.Group = rb.Group) ∧
    (rb.Group = [] → ra.Group ≠ [] → u.Group = ra.Group) ∧
    (ra.Group ≠ [] → rb.Group ≠ [] → TagSet.Equal ra.Group rb.Group = false →
      TagSet.Subset ra.Group rb.Group = true → u.Group = ra.Group) ∧
    (ra.Group ≠ [] → rb.Group ≠ [] → TagSet.Equal ra.Group rb.Group = false →
      TagSet.Subset rb.Group ra.Group = true → u.Group = rb.Group) := by
  unfold unionOne at h
  split at h
  · rename_i hc
    injection h with h
    subst h
    simp only [Bool.or_eq_true] at hc
    refine ⟨rfl, rfl, rfl, ?_, ?_, ?_, ?_⟩
    · intro hra
      simp [hra]
    · intro hrb hra
      have hlen : ¬ (List.length ra.Group == 0) = true := by
        simpa using fun hlen => hra (List.length_eq_zero.mp hlen)
      simp [hlen]
    · intro hra hrb heq _
      rcases hc with (hc | hc) | hc
      · exact absurd hc (by simp [heq])
      · exact absurd (List.length_eq_zero.mp (by simpa using hc)) hra
      · exact absurd (List.length_eq_zero.mp (by simpa using hc)) hrb
    · intro hra hrb heq _
      rcases hc with (hc | hc) | hc
      · exact absurd hc (by simp [heq])
      · exact absurd (List.length_eq_zero.mp (by simpa using hc)) hra
      · exact absurd (List.length_eq_zero.mp (by simpa using hc)) hrb
  · rename_i hc
    simp only [Bool.or_eq_true, not_or] at hc
    split at h
    · rename_i hsub
      injection h with h
      subst h
      refine ⟨rfl, rfl, rfl, ?_, ?_, fun _ _ _ _ => rfl, ?_⟩
      · intro hra
        exact absurd (by simp [hra]) hc.1.2
      · intro hrb _
        exact absurd (by simp [hrb]) hc.2
      · intro hra hrb heq hsub2
        have hEq : TagSet.Equal ra.Group rb.Group = true := by
          simp [TagSet.Equal, hsub, hsub2]
        simp [hEq] at heq
    · rename_i hsub1
      split at h
      · rename_i hsub2
        injection h with h
        subst h
        refine ⟨rfl, rfl, rfl, ?_, ?_, ?_, fun _ _ _ _ => rfl⟩
        · intro hra
          exact absurd (by simp [hra]) hc.1.2
        · intro hrb _
          exact absurd (by simp [hrb]) hc.2
        · intro hra hrb heq hsub
          exact absurd hsub hsub1
      · cases h

/-- Claim C2 witness: the amended group-resolution law evaluated on the
concrete strict-subset pair `(raSup, rbSub)`. -/
theorem c2_group_resolution_amended_witness :
    unionOne raSup rbSub = some uC2 ∧ uC2.Group = rbSub.Group := by
  have h := c2_group_resolution_amended raSup rbSub uC2 rfl
  exact ⟨rfl, h.2.2.2.2.2.2 (by decide) (by decide) rfl rfl⟩

/-- Claim C3: whenever the walk raises a domain failure (an operand pair
with no evaluator rule, an unrecognized operator token, or a built-in's
returned error), `Execute` returns exactly that error — the `err` outcome,
which carries nil results and nil backend requests and is not a crash; in
particular a binary operator both of whose sides resolve to Series
surfaces as `Execute`'s returned error. -/
theorem c3_domain_failure_execute :
    (∀ (root : Node) (c : Context) (T : Option Timer) (T' : Timer) (e : EvalError),
      (walk root T' (initState c)).2 = .error (.domain e) → Execute root c T = .err e) ∧
    Execute seriesSeriesNode { info := [] } none = .err .unknownOpType := by
  constructor
  · intro root c T T' e h
    unfold Execute Timer.Step
    dsimp only
    rw [walk_timer_eq root _ T' (initState c)]
    rcases hw : walk root T' (initState c) with ⟨s, res⟩
    rw [hw] at h
    simp only at h
    subst h
    rfl
  · rfl

/-- Claim C3 witness: the general propagation rule applied to the concrete
Series-paired-with-Series expression. -/
theorem c3_domain_failure_execute_witness :
    (walk seriesSeriesNode { steps := [] } (initState { info := [] })).2
      = .error (.domain .unknownOpType) ∧
    Execute seriesSeriesNode { info := [] } none = .err .unknownOpType :=
  ⟨rfl, c3_domain_failure_execute.1 seriesSeriesNode { info := [] } none { steps := [] }
    .unknownOpType rfl⟩

/-- Claim C4: for every union pairing a Series with a Scalar or Number
under a recognized operator, the result is a Series over exactly the
series operand's timestamps, each sample being the operator applied with
the left operand's value on the left and the right operand's value on the
right, while the union's resolved group and accumulated computations are
carried onto the result unchanged. -/
theorem c4_series_broadcast (op txt : String) (hop : op ∈ knownOps) (u : Union) :
    (∀ a sb, (u.A = .scalar a ∨ u.A = .number a) → u.B = .series sb →
      combineUnion op txt u = .ok
        { Computations := u.Computations,
          Value := .series (sb.map fun kv => (kv.1, opDenote op a kv.2)),
          Group := u.Group }) ∧
    (∀ sa b, u.A = .series sa → (u.B = .scalar b ∨ u.B = .number b) →
      combineUnion op txt u = .ok
        { Computations := u.Computations,
          Value := .series (sa.map fun kv => (kv.1, opDenote op kv.2 b)),
          Group := u.Group }) := by
  obtain ⟨cs, A, B, g⟩ := u
  constructor
  · rintro a sb (hA | hA) hB <;> subst hA <;> subst hB <;>
      simp [combineUnion,
        mapSeries_ok (fun x => operate op a x) (fun x => opDenote op a x)
          (fun x => operate_known op hop a x) sb, Except.map]
  · rintro sa b hA (hB | hB) <;> subst hA <;> subst hB <;>
      simp [combineUnion,
        mapSeries_ok (fun x => operate op x b) (fun x => opDenote op x b)
          (fun x => operate_known op hop x b) sa, Except.map]

/-- Claim C4 witness: broadcasting `series - scalar` on the concrete union
`uC4`; subtraction is applied with the series sample on the left, and the
group and computations pass through. -/
theorem c4_series_broadcast_witness :
    combineUnion "-" "t" uC4 = .ok
      { Computations := [⟨⟨"t", []⟩, .finite 1⟩],
        Value := .series [("0", F.ninf)],
        Group := [("host","a")] } :=
  (c4_series_broadcast "-" "t" (by decide) uC4).2 [("0", .finite 3)] F.pinf rfl (Or.inl rfl)

/-- Claim C5: `operate` computes the four arithmetic tokens by the
(modelled) IEEE-754 float operations without ever raising — in particular
a nonzero finite value divided by zero yields a signed infinity and `0/0`
yields NaN; each comparison token yields exactly 1.0 when the comparison
holds and exactly 0.0 otherwise; the logical tokens treat any nonzero
operand (including NaN) as true and yield exactly 1.0 or 0.0; and any
token outside the recognized set raises the unknown-operator failure. -/
theorem c5_operate_semantics (a b : F) (op : String) :
    (operate "+" a b = .ok (F.add a b) ∧ operate "-" a b = .ok (F.sub a b) ∧
     operate "*" a b = .ok (F.mul a b) ∧ operate "/" a b = .ok (F.div a b)) ∧
    (∀ q : ℚ, q ≠ 0 → F.div (.finite q) (.finite 0) = if 0 < q then F.pinf else F.ninf) ∧
    F.div (.finite 0) (.finite 0) = F.nan ∧
    (∀ cop, cop ∈ ["==", ">", "!=", "<", ">=", "<=", "||", "&&"] →
      operate cop a b = .ok (.finite 1) ∨ operate cop a b = .ok (.finite 0)) ∧
    (operate "==" a b = .ok (.finite 1) ↔ F.beq a b = true) ∧
    (operate "<" a b = .ok (.finite 1) ↔ F.lt a b = true) ∧
    (operate "<=" a b = .ok (.finite 1) ↔ F.le a b = true) ∧
    (operate ">" a b = .ok (.finite 1) ↔ F.lt b a = true) ∧
    (operate ">=" a b = .ok (.finite 1) ↔ F.le b a = true) ∧
    (operate "!=" a b = .ok (.finite 1) ↔ F.beq a b = false) ∧
    (operate "||" a b = .ok (.finite 1) ↔
      (F.beq a (.finite 0) = false ∨ F.beq b (.finite 0) = false)) ∧
    (operate "&&" a b = .ok (.finite 1) ↔
      (F.beq a (.finite 0) = false ∧ F.beq b (.finite 0) = false)) ∧
    (op ∉ knownOps → operate op a b = .error (.domain (.unknownOperator op))) := by
  obtain ⟨he, hg, hne, hl, hge, hle, hor, hand⟩ := operate_cmp_defs a b
  refine ⟨⟨rfl, rfl, rfl, rfl⟩, ?_, rfl, ?_, ?_, ?_, ?_, ?_, ?_, ?_, ?_, ?_, ?_⟩
  · intro q hq
    simp [F.div, hq]
  · intro cop hcop
    simp only [List.mem_cons, List.not_mem_nil, or_false] at hcop
    rcases hcop with h | h | h | h | h | h | h | h <;> subst h <;>
      first
      | (rw [he]; split <;> simp)
      | (rw [hg]; split <;> simp)
      | (rw [hne]; split <;> simp)
      | (rw [hl]; split <;> simp)
      | (rw [hge]; split <;> simp)
      | (rw [hle]; split <;> simp)
      | (rw [hor]; split <;> simp)
      | (rw [hand]; split <;> simp)
  · rw [he]; cases h : F.beq a b <;> simp
  · rw [hl]; cases h : F.lt a b <;> simp
  · rw [hle]; cases h : F.le a b <;> simp
  · rw [hg]; cases h : F.lt b a <;> simp
  · rw [hge]; cases h : F.le b a <;> simp
  · rw [hne]; cases h : F.beq a b <;> simp
  · rw [hor]; cases ha : F.beq a (.finite 0) <;> cases hb : F.beq b (.finite 0) <;> simp
  · rw [hand]; cases ha : F.beq a (.finite 0) <;> cases hb : F.beq b (.finite 0) <;> simp
  · intro hop
    simp only [knownOps, List.mem_cons, List.not_mem_nil, or_false, not_or] at hop
    obtain ⟨h1, h2, h3, h4, h5, h6, h7, h8, h9, h10, h11, h12⟩ := hop
    simp [operate, h1, h2, h3, h4, h5, h6, h7, h8, h9, h10, h11, h12]

/-- Claim C5 witness: the operator semantics evaluated at concrete inputs
(dividing one by zero yields positive infinity; the unrecognized token
yields the unknown-operator failure). -/
theorem c5_operate_semantics_witness :
    F.div (.finite 1) (.finite 0) = F.pinf ∧
    operate "%" F.nan F.nan = .error (.domain (.unknownOperator "%")) := by
  have h := c5_operate_semantics F.nan F.nan "%"
  constructor
  · have hq := h.2.1 1 one_ne_zero
    simpa using hq
  · exact h.2.2.2.2.2.2.2.2.2.2.2.2 (by decide)

/-- Claim C6: extraction yields the bare float for a one-element slice
holding a scalar, and yields the slice itself unchanged for an empty
slice, a slice of two or more results, or a one-element slice holding a
non-scalar. -/
theorem c6_extract_scalar_rule (res : List Result) :
    (∀ (c : Computations) (v : F) (g : TagSet),
      extractScalar [{ Computations := c, Value := .scalar v, Group := g }] = .num v) ∧
    ((res = [] ∨ 1 < res.length ∨ ∃ r, res = [r] ∧ ∀ v, r.Value ≠ .scalar v) →
      extractScalar res = .results res) := by
  constructor
  · intro c v g
    rfl
  · intro h
    match res, h with
    | [], _ => rfl
    | [r], h =>
      have hv : ∀ v, r.Value ≠ Value.scalar v := by
        rcases h with h | h | ⟨r', hr, hv⟩
        · simp at h
        · simp at h
        · injection hr with h1 h2
          subst h1
          exact hv
      cases hval : r.Value with
      | scalar v => exact absurd hval (hv v)
      | number v => simp [extractScalar, hval]
      | series s => simp [extractScalar, hval]
    | a :: b :: t, _ => rfl

/-- Claim C6 witness: extraction on a concrete one-element scalar slice
and on a concrete one-element number slice. -/
theorem c6_extract_scalar_rule_witness :
    extractScalar [{ Computations := [], Value := .scalar (.finite 7), Group := [] }]
      = .num (.finite 7) ∧
    extractScalar [{ Computations := [], Value := .number (.finite 7), Group := [("host","a")] }]
      = .results [{ Computations := [], Value := .number (.finite 7), Group := [("host","a")] }] := by
  refine ⟨(c6_extract_scalar_rule []).1 [] (.finite 7) [], ?_⟩
  exact (c6_extract_scalar_rule
      [{ Computations := [], Value := .number (.finite 7), Group := [("host","a")] }]).2
    (Or.inr (Or.inr ⟨_, rfl, fun v h => by cases h⟩))

/-- Claim C7: for a call node whose descriptor declares a Number return,
`walkFunc` routes the returned results through the unchecked-cast loop;
when every returned value is a Number, a computation is appended to each
result; when some returned value is not a Number, the loop raises the
type-assertion runtime fault, and a fault unwinding to `Execute` is
re-raised as a crash — never converted into the returned error. -/
theorem c7_number_cast_fault :
    (∀ (fd : FuncDef) (txt : String) (args : NodeList) (T : Timer) (s s1 s2 : EvalState)
       (ins : List FuncArg) (rs : List Result),
       walkArgs args T s = (s1, .ok ins) → fd.run s1 ins = (s2, .ok rs) →
       fd.rtype = .number →
       walk (.func fd txt args) T s = (s2, appendNumberComps txt rs)) ∧
    (∀ (txt : String) (rs : List Result), (∀ r ∈ rs, ∃ n, r.Value = .number n) →
       appendNumberComps txt rs = .ok (rs.map fun r => r.AddComputation txt (numVal r))) ∧
    (∀ (txt : String) (rs : List Result) (r : Result), r ∈ rs →
       (∀ n, r.Value ≠ .number n) →
       appendNumberComps txt rs = .error (.fault assertMsg)) ∧
    (∀ (root : Node) (c : Context) (T : Option Timer) (T' : Timer) (m : String),
       (walk root T' (initState c)).2 = .error (.fault m) →
       Execute root c T = .crash m ∧ ∀ e, Execute root c T ≠ .err e) := by
  refine ⟨?_, ?_, ?_, ?_⟩
  · intro fd txt args T s s1 s2 ins rs hargs hrun hn
    simp only [walk]
    rw [hargs]
    simp only []
    rw [hrun]
    simp [hn]
  · intro txt rs hall
    unfold appendNumberComps
    apply collect_ok_mem
    intro r hr
    obtain ⟨n, hn⟩ := hall r hr
    simp [hn, numVal, Result.AddComputation]
  · intro txt rs r hr hbad
    unfold appendNumberComps
    apply collect_error_of_mem
    · intro a
      cases hval : a.Value with
      | number n => exact Or.inl ⟨a.AddComputation txt n, by simp [hval]⟩
      | scalar v => exact Or.inr (by simp [hval])
      | series s => exact Or.inr (by simp [hval])
    · refine ⟨r, hr, ?_⟩
      cases hval : r.Value with
      | number n => exact absurd hval (hbad n)
      | scalar v => simp [hval]
      | series s => simp [hval]
  · intro root c T T' m h
    unfold Execute Timer.Step
    dsimp only
    rw [walk_timer_eq root _ T' (initState c)]
    rcases hw : walk root T' (initState c) with ⟨s, res⟩
    rw [hw] at h
    simp only at h
    subst h
    exact ⟨rfl, fun e => by simp⟩

/-- Claim C7 witness: the built-in `badFn`, declared Number but returning a
scalar, makes the cast loop raise the type-assertion fault and `Execute`
crash. -/
theorem c7_number_cast_fault_witness :
    walk badNode { steps := [] } (initState { info := [] })
      = (initState { info := [] },
         appendNumberComps "n()"
           [{ Computations := [], Value := .scalar (.finite 1), Group := [] }]) ∧
    appendNumberComps "n()" [{ Computations := [], Value := .scalar (.finite 1), Group := [] }]
      = .error (.fault assertMsg) ∧
    Execute badNode { info := [] } none = .crash assertMsg := by
  refine ⟨c7_number_cast_fault.1 badFn "n()" .nil { steps := [] } (initState { info := [] })
      (initState { info := [] }) (initState { info := [] }) [] _ rfl rfl rfl, ?_, ?_⟩
  · exact c7_number_cast_fault.2.2.1 "n()" _
      { Computations := [], Value := .scalar (.finite 1), Group := [] }
      (by simp) (fun n h => by cases h)
  · exact (c7_number_cast_fault.2.2.2 badNode { info := [] } none { steps := [] }
      assertMsg rfl).1

/-- Claim C8: for every unary node over a recognized unary token, the walk
applies the operator elementwise to each result's value of the evaluated
argument (scalar, number and every series sample), and every result's
group and computations are left unchanged. -/
theorem c8_unary_elementwise (op txt : String) (hop : op = "!" ∨ op = "-") (arg : Node)
    (T : Timer) (s s1 : EvalState) (rs : List Result) (h : walk arg T s = (s1, .ok rs)) :
    walk (.unary op txt arg) T s = (s1, .ok (rs.map (specApplyUnary op))) ∧
    ∀ r, (specApplyUnary op r).Group = r.Group ∧
         (specApplyUnary op r).Computations = r.Computations := by
  constructor
  · simp only [walk]
    rw [h]
    simp only [unaryAll]
    rw [collect_ok (unaryOne op) (specApplyUnary op) (fun r => unaryOne_known op hop r) rs]
  · intro r
    exact ⟨rfl, rfl⟩

/-- Claim C8 witness: negating the literal 1 yields a single scalar result
holding -1 with empty group and computations preserved. -/
theorem c8_unary_elementwise_witness :
    walk (.unary "-" "-1" (.num (.finite 1))) { steps := [] } (initState { info := [] })
      = (initState { info := [] },
         .ok [{ Computations := [], Value := .scalar (.finite (-1)), Group := [] }]) :=
  (c8_unary_elementwise "-" "-1" (Or.inr rfl) (.num (.finite 1)) { steps := [] }
    (initState { info := [] }) (initState { info := [] }) (wrap (.finite 1)) rfl).1

/-- Claim C9: `Execute` returns identical outcomes (results, backend
requests, and failure classification) whichever timer is supplied,
including the nil timer that is replaced by a fresh no-op profile. -/
theorem c9_timer_independence (root : Node) (c : Context) (T1 T2 : Option Timer) :
    Execute root c T1 = Execute root c T2 := by
  unfold Execute Timer.Step
  dsimp only
  conv_lhs => rw [walk_timer_eq root _ ({ steps := [] } : Timer) (initState c)]
  conv_rhs => rw [walk_timer_eq root _ ({ steps := [] } : Timer) (initState c)]

/-- Claim C10: JSON-marshaling a Scalar or Number wrapping NaN yields
exactly the string `NaN`, positive infinity `+Inf`, negative infinity
`-Inf`, and every finite value an equal-valued plain numeric literal. -/
theorem c10_marshal_specials (q : ℚ) :
    Value.MarshalJSON (.number F.nan) = some (.str "NaN") ∧
    Value.MarshalJSON (.scalar F.nan) = some (.str "NaN") ∧
    Value.MarshalJSON (.number F.pinf) = some (.str "+Inf") ∧
    Value.MarshalJSON (.scalar F.pinf) = some (.str "+Inf") ∧
    Value.MarshalJSON (.number F.ninf) = some (.str "-Inf") ∧
    Value.MarshalJSON (.scalar F.ninf) = some (.str "-Inf") ∧
    Value.MarshalJSON (.number (.finite q)) = some (.num (.finite q)) ∧
    Value.MarshalJSON (.scalar (.finite q)) = some (.num (.finite q)) :=
  ⟨rfl, rfl, rfl, rfl, rfl, rfl, rfl, rfl⟩

end Bosun
